import Mathlib

/-!
Verification of the sliding-window question-answering span extractor from the
`218-vehicle-detection-and-recognition` notebook (functions `prepare_input`,
`pad`, `postprocess`, `find_best_answer_window`, `get_best_answer`,
`run_question_answering`).

Shallow embedding conventions:
* Python ints are modelled as `ℤ` where sign matters (`context_len`,
  `pad_number`) and as `ℕ` for indices and token ids.
* numpy float arrays are modelled as `List ℚ`; `np.exp` is an explicit
  parameter `exp : ℚ → ℚ` (the theorems assume only its strict positivity,
  which is the one property of the real exponential the code relies on).
* The external collaborators (tokenizer, inference engine) are parameters:
  `tok : String → List ℕ × List (ℕ × ℕ)` and
  `model : WindowRec → List ℚ × List ℚ`.
* Python exceptions are modelled with `Except QAError`.
-/

namespace QA

/-- Runtime configuration: the model input length (`input_size`, read from the
compiled model) and the reserved vocabulary ids `cls_token`, `sep_token`,
`pad_token` (looked up in the vocabulary at startup). -/
structure Config where
  input_size : ℕ
  cls_token : ℕ
  sep_token : ℕ
  pad_token : ℕ
deriving DecidableEq, Repr

/-- Errors of the pipeline. `inputTooLong` is the `RuntimeError` raised by
`prepare_input`; `emptyContext` models the early return (with an error message)
of `run_question_answering` on an empty context string; `emptyScoreMatrix`
models the numpy `ValueError` raised by `argmax` on an empty array (an empty
per-window context slice); `noResults` models Python `max([])` (unreachable,
since at least one window is always emitted). -/
inductive QAError where
  | inputTooLong
  | emptyContext
  | emptyScoreMatrix
  | noResults
deriving DecidableEq, Repr

/-- Decidable equality of `Except` results (not provided by the library for
this combination), used to evaluate the model on concrete inputs. -/
instance exceptDecEq {ε α : Type} [DecidableEq ε] [DecidableEq α] :
    DecidableEq (Except ε α) := fun x y =>
  match x, y with
  | .error a, .error b =>
      if h : a = b then .isTrue (congrArg Except.error h)
      else .isFalse fun hc => h (Except.error.inj hc)
  | .ok a, .ok b =>
      if h : a = b then .isTrue (congrArg Except.ok h)
      else .isFalse fun hc => h (Except.ok.inj hc)
  | .error _, .ok _ => .isFalse fun hc => Except.noConfusion hc
  | .ok _, .error _ => .isFalse fun hc => Except.noConfusion hc

/-- One element yielded by the `prepare_input` generator: the three padded
input sequences of the `input_dict`, the padding count and the starting
context-token index (the optional `position_ids` array, `0..input_size-1`,
carries no information and is omitted). -/
structure WindowRec where
  input_ids : List ℕ
  attention_mask : List ℕ
  token_type_ids : List ℕ
  pad_number : ℤ
  start : ℕ
deriving DecidableEq, Repr

/-- Python `range(0, stop, step)` for `step > 0`: the list
`[0, step, 2*step, ...]` of all multiples of `step` below `stop`. -/
def pyRange (stop step : ℕ) : List ℕ :=
  (List.range ((stop + step - 1) / step)).map (· * step)

/-- Python `s[a:b]` on strings (character slice, clamped). -/
def pySlice (s : String) (a b : ℕ) : String :=
  ⟨(s.data.drop a).take (b - a)⟩

/-- Source `context_len = input_size - question_len - 3` in `prepare_input`
(Python int arithmetic, hence `ℤ`). -/
def context_len_int (cfg : Config) (question_len : ℕ) : ℤ :=
  (cfg.input_size : ℤ) - question_len - 3

/-- Source `pad`: append `pad_token` (resp. `0`) up to `input_size` when the
input is short; the returned number is `input_size - len(input_ids)` exactly as
in the source (it can be negative there, in which case nothing is appended). -/
def pad (cfg : Config) (input_ids attention_mask token_type_ids : List ℕ) :
    (List ℕ × List ℕ × List ℕ) × ℤ :=
  let diff_input_size : ℤ := (cfg.input_size : ℤ) - input_ids.length
  if 0 < diff_input_size then
    ((input_ids ++ List.replicate diff_input_size.toNat cfg.pad_token,
      attention_mask ++ List.replicate diff_input_size.toNat 0,
      token_type_ids ++ List.replicate diff_input_size.toNat 0),
     diff_input_size)
  else
    ((input_ids, attention_mask, token_type_ids), diff_input_size)

/-- Body of the `prepare_input` loop for one value of `start`: the context
slice `context_tokens[start:start+L]`, the input ids
`[CLS] + question + [SEP] + slice + [SEP]`, the all-ones attention mask, the
segment ids, and the call to `pad`. -/
def mkWindow (cfg : Config) (question_tokens context_tokens : List ℕ)
    (L start : ℕ) : WindowRec :=
  let part_context_tokens := (context_tokens.drop start).take L
  let input_ids := [cfg.cls_token] ++ question_tokens ++ [cfg.sep_token] ++
    part_context_tokens ++ [cfg.sep_token]
  let attention_mask := List.replicate input_ids.length 1
  let token_type_ids := List.replicate (question_tokens.length + 2) 0 ++
    List.replicate (part_context_tokens.length + 1) 1
  let padded := pad cfg input_ids attention_mask token_type_ids
  { input_ids := padded.1.1
    attention_mask := padded.1.2.1
    token_type_ids := padded.1.2.2
    pad_number := padded.2
    start := start }

/-- Source `prepare_input`: raises when `context_len < 16`, otherwise yields
one window per `start` in `range(0, max(1, len(context_tokens) - context_len),
context_len // 2)` (the generator is modelled as the list of its yields; the
Python `max(1, len - context_len)` on ints coincides with `max 1` of the
truncated `ℕ` subtraction). -/
def prepare_input (cfg : Config) (question_tokens context_tokens : List ℕ) :
    Except QAError (List WindowRec) :=
  let question_len := question_tokens.length
  let context_len : ℤ := context_len_int cfg question_len
  if context_len < 16 then
    .error .inputTooLong
  else
    let L := context_len.toNat
    .ok ((pyRange (max 1 (context_tokens.length - L)) (L / 2)).map
      (mkWindow cfg question_tokens context_tokens L))

/-- Source `get_score` (softmax) inside `postprocess`:
`out = np.exp(logits); out / out.sum()`, with `np.exp` passed explicitly. -/
def get_score (exp : ℚ → ℚ) (logits : List ℚ) : List ℚ :=
  let out := logits.map exp
  out.map (· / out.sum)

/-- Slice `v[context_start_idx:context_end_idx]` of a score vector, as taken
by `find_best_answer_window` before the `reshape` (numpy requires the slice to
have exactly `context_end_idx - context_start_idx` elements there, which holds
whenever `context_end_idx ≤ v.length`). -/
def sliced (v : List ℚ) (context_start_idx context_end_idx : ℕ) : List ℚ :=
  (v.drop context_start_idx).take (context_end_idx - context_start_idx)

/-- Entry `(i, j)` of the masked score matrix of `find_best_answer_window`:
the outer product `start_score ⊗ end_score` restricted to the context slice,
after `np.triu` (zero when `j < i`) and `np.tril(·, 16)` (zero when
`j > i + 16`). -/
def maskedEntry (ss es : List ℚ) (i j : ℕ) : ℚ :=
  if i ≤ j ∧ j ≤ i + 16 then ss.getD i 0 * es.getD j 0 else 0

/-- Row-major flattening of the `L × L` score matrix, as produced by
`score_mat.flatten()`: element `k` is the matrix entry at row `k / L`,
column `k % L`. -/
def flatScore (ent : ℕ → ℕ → ℚ) (L : ℕ) : List ℚ :=
  (List.range (L * L)).map fun k => ent (k / L) (k % L)

/-- Model of `numpy.argmax`: the index of the first occurrence of the maximum
(documented numpy behavior: "In case of multiple occurrences of the maximum
values, the indices corresponding to the first occurrence are returned").
The head wins a tie against the rest, hence the strict comparison; numpy
raises on an empty array, and callers guard that case. -/
def npArgmax : List ℚ → ℕ
  | [] => 0
  | [_] => 0
  | x :: y :: ys =>
      if x < (y :: ys).getD (npArgmax (y :: ys)) 0 then npArgmax (y :: ys) + 1 else 0

/-- Source `find_best_answer_window`: slice both score vectors to the context
range, build the masked outer-product matrix, flatten it row-major, take the
first argmax and `divmod` it by the row length; the score is the matrix entry
at that position. `numpy` raises a `ValueError` when `argmax` is applied to an
empty (`0 × 0`) matrix, modelled by the `emptyScoreMatrix` error. -/
def find_best_answer_window (start_score end_score : List ℚ)
    (context_start_idx context_end_idx : ℕ) : Except QAError (ℚ × ℕ × ℕ) :=
  let context_len := context_end_idx - context_start_idx
  let ss := sliced start_score context_start_idx context_end_idx
  let es := sliced end_score context_start_idx context_end_idx
  let ent := maskedEntry ss es
  let flat := flatScore ent context_len
  if flat.isEmpty then
    .error .emptyScoreMatrix
  else
    let idx := npArgmax flat
    let max_s := idx / context_len
    let max_e := idx % context_len
    .ok (ent max_s max_e, max_s, max_e)

/-- Source `postprocess`: softmax both logit vectors, compute the context
range inside the padded input (`context_start_idx = len(question) + 2`,
`context_end_idx = input_size - padding - 1`), search the best span in the
window, then translate the window-local token indices to character offsets
through `context_tokens_start_end` (Python would raise `IndexError` out of
range; the lookups are proved in range inside the pipeline, so the `getD`
default is never read there). -/
def postprocess (cfg : Config) (exp : ℚ → ℚ) (output_start output_end : List ℚ)
    (question_tokens : List ℕ) (context_tokens_start_end : List (ℕ × ℕ))
    (padding : ℤ) (start_idx : ℕ) : Except QAError (ℚ × ℕ × ℕ) :=
  let score_start := get_score exp output_start
  let score_end := get_score exp output_end
  let context_start_idx := question_tokens.length + 2
  let context_end_idx := ((cfg.input_size : ℤ) - padding - 1).toNat
  match find_best_answer_window score_start score_end context_start_idx context_end_idx with
  | .error e => .error e
  | .ok (max_score, max_s, max_e) =>
      .ok (max_score,
        (context_tokens_start_end.getD (max_s + start_idx) (0, 0)).1,
        (context_tokens_start_end.getD (max_e + start_idx) (0, 0)).2)

/-- Candidate list built by the loop of `get_best_answer`: tokenize the
lowercased context and question, window the context, and for every window run
the (external) model and `postprocess` its two logit vectors, collecting one
`(score, char_start, char_end)` triple per window in emission order. -/
def candidates (cfg : Config) (exp : ℚ → ℚ)
    (tok : String → List ℕ × List (ℕ × ℕ)) (model : WindowRec → List ℚ × List ℚ)
    (question context : String) : Except QAError (List (ℚ × ℕ × ℕ)) :=
  let ct := tok context.toLower
  let qt := tok question.toLower
  match prepare_input cfg qt.1 ct.1 with
  | .error e => .error e
  | .ok windows =>
      windows.mapM fun w =>
        postprocess cfg exp (model w).1 (model w).2 qt.1 ct.2 w.pad_number w.start

/-- Python `max(results, key=operator.itemgetter(0))` on a non-empty list:
left fold that replaces the current best only on a strictly larger key, so
ties keep the earliest element. -/
def pyMax (r : ℚ × ℕ × ℕ) : List (ℚ × ℕ × ℕ) → ℚ × ℕ × ℕ
  | [] => r
  | x :: xs => pyMax (if r.1 < x.1 then x else r) xs

/-- Source `get_best_answer`: pick the highest-scoring candidate (Python `max`,
first maximum wins) and return the answer substring `context[start:end]`
together with its score. -/
def get_best_answer (cfg : Config) (exp : ℚ → ℚ)
    (tok : String → List ℕ × List (ℕ × ℕ)) (model : WindowRec → List ℚ × List ℚ)
    (question context : String) : Except QAError (String × ℚ) :=
  match candidates cfg exp tok model question context with
  | .error e => .error e
  | .ok [] => .error .noResults
  | .ok (r :: rs) =>
      let answer := pyMax r rs
      .ok (pySlice context answer.2.1 answer.2.2, answer.1)

/-- Source `run_question_answering` for one question: the context string is
already loaded (`load_context` is external I/O); on `len(context) == 0` the
source prints an error message and returns without an answer, modelled as the
`emptyContext` error. -/
def run_question_answering (cfg : Config) (exp : ℚ → ℚ)
    (tok : String → List ℕ × List (ℕ × ℕ)) (model : WindowRec → List ℚ × List ℚ)
    (context question : String) : Except QAError (String × ℚ) :=
  if context.length = 0 then .error .emptyContext
  else get_best_answer cfg exp tok model question context

/-- Context slice of the window starting at `start` (the
`part_context_tokens = context_tokens[start:start+context_len]` of the loop
body, recomputed from the start index). -/
def context_slice (cfg : Config) (question_tokens context_tokens : List ℕ)
    (start : ℕ) : List ℕ :=
  (context_tokens.drop start).take (context_len_int cfg question_tokens.length).toNat

/-- Specification predicate (Bool): context-token index `i` lies in the slice
of at least one window emitted for `(question_tokens, context_tokens)`. -/
def coveredB (cfg : Config) (question_tokens context_tokens : List ℕ) (i : ℕ) : Bool :=
  match prepare_input cfg question_tokens context_tokens with
  | .error _ => false
  | .ok ws => ws.any fun w =>
      decide (w.start ≤ i ∧
        i < w.start + (context_slice cfg question_tokens context_tokens w.start).length)

/-- Number of context-token positions shared by the slices of the windows
starting at `s1` and at `s2 ≥ s1` (size of the intersection of the two
index ranges, `ℕ`-truncated when they are disjoint). -/
def adjacent_overlap (cfg : Config) (question_tokens context_tokens : List ℕ)
    (s1 s2 : ℕ) : ℕ :=
  min (s1 + (context_slice cfg question_tokens context_tokens s1).length)
      (s2 + (context_slice cfg question_tokens context_tokens s2).length) - s2

/-- Modelled from the spec: the external tokenizer collaborator
(`tokens.text_to_tokens` of the notebook utils, not under `src/`): "given raw
text, returns an ordered sequence of Token (id + character-offset range)".
This minimal instance emits one token per non-space character (id = its code
point, offsets `[i, i+1)`); whitespace produces no token, matching the spec
sentence "the supplied context, after trimming, is empty (no tokens)". -/
def specTokenize (s : String) : List ℕ × List (ℕ × ℕ) :=
  let idx := (List.range s.data.length).filter fun i => s.data.getD i ' ' ≠ ' '
  (idx.map fun i => (s.data.getD i ' ').toNat, idx.map fun i => (i, i + 1))

end QA

namespace QA

/-! ### Helper lemmas: `pyRange` -/

theorem pyRange_length (stop step : ℕ) :
    (pyRange stop step).length = (stop + step - 1) / step := by
  simp [pyRange]

theorem lt_ceilDiv_iff (stop step k : ℕ) (hs : 0 < step) :
    k < (stop + step - 1) / step ↔ k * step < stop := by
  rw [Nat.lt_iff_add_one_le, Nat.le_div_iff_mul_le hs]
  have hexp : (k + 1) * step = k * step + step := by ring
  omega

theorem pyRange_get (stop step k : ℕ) (h : k < (pyRange stop step).length) :
    (pyRange stop step).get ⟨k, h⟩ = k * step := by
  simp [pyRange]

theorem pyRange_ne_nil (stop step : ℕ) (hstop : 0 < stop) (hs : 0 < step) :
    pyRange stop step ≠ [] := by
  have h1 : 0 < (stop + step - 1) / step :=
    (lt_ceilDiv_iff stop step 0 hs).mpr (by omega)
  simp only [pyRange, ne_eq, List.map_eq_nil_iff, List.range_eq_nil]
  omega

/-! ### Helper lemmas: list slices -/

theorem slice_length {α : Type} (l : List α) (a b : ℕ) (h : a + b ≤ l.length) :
    ((l.drop a).take b).length = b := by
  simp only [List.length_take, List.length_drop]
  omega

theorem slice_getD {α : Type} (l : List α) (d : α) (a b i : ℕ)
    (hib : i < b) (hlen : a + i < l.length) :
    ((l.drop a).take b).getD i d = l.getD (a + i) d := by
  have h1 : i < ((l.drop a).take b).length := by
    simp only [List.length_take, List.length_drop]
    omega
  rw [List.getD_eq_getElem _ _ h1, List.getD_eq_getElem _ _ hlen]
  rw [List.getElem_take, List.getElem_drop]

/-! ### Helper lemmas: `npArgmax` -/

theorem npArgmax_lt (l : List ℚ) (h : l ≠ []) : npArgmax l < l.length := by
  induction l with
  | nil => exact absurd rfl h
  | cons x xs ih =>
    cases xs with
    | nil => simp [npArgmax]
    | cons y ys =>
      simp only [npArgmax]
      split
      · have hy := ih (by simp)
        simpa using Nat.succ_lt_succ hy
      · simp

theorem npArgmax_le (l : List ℚ) (j : ℕ) (hj : j < l.length) :
    l.getD j 0 ≤ l.getD (npArgmax l) 0 := by
  induction l generalizing j with
  | nil => simp at hj
  | cons x xs ih =>
    cases xs with
    | nil =>
      have hj0 : j = 0 := by simpa using hj
      subst hj0
      simp [npArgmax]
    | cons y ys =>
      by_cases hx : x < (y :: ys).getD (npArgmax (y :: ys)) 0
      · have heq : npArgmax (x :: y :: ys) = npArgmax (y :: ys) + 1 := by
          simp only [npArgmax]
          rw [if_pos hx]
        rw [heq, List.getD_cons_succ]
        cases j with
        | zero => exact le_of_lt (by simpa using hx)
        | succ k =>
          rw [List.getD_cons_succ]
          exact ih k (by simpa using hj)
      · have heq : npArgmax (x :: y :: ys) = 0 := by
          simp only [npArgmax]
          rw [if_neg hx]
        rw [heq, List.getD_cons_zero]
        push_neg at hx
        cases j with
        | zero => simp
        | succ k =>
          rw [List.getD_cons_succ]
          exact le_trans (ih k (by simpa using hj)) hx

theorem npArgmax_first (l : List ℚ) (j : ℕ) (hj : j < npArgmax l) :
    l.getD j 0 < l.getD (npArgmax l) 0 := by
  induction l generalizing j with
  | nil => simp [npArgmax] at hj
  | cons x xs ih =>
    cases xs with
    | nil => simp [npArgmax] at hj
    | cons y ys =>
      by_cases hx : x < (y :: ys).getD (npArgmax (y :: ys)) 0
      · have heq : npArgmax (x :: y :: ys) = npArgmax (y :: ys) + 1 := by
          simp only [npArgmax]
          rw [if_pos hx]
        rw [heq] at hj ⊢
        rw [List.getD_cons_succ]
        cases j with
        | zero => simpa using hx
        | succ k =>
          rw [List.getD_cons_succ]
          exact ih k (by omega)
      · have heq : npArgmax (x :: y :: ys) = 0 := by
          simp only [npArgmax]
          rw [if_neg hx]
        rw [heq] at hj
        omega

/-! ### Helper lemmas: `flatScore` and row-major indexing -/

theorem flatScore_length (ent : ℕ → ℕ → ℚ) (L : ℕ) :
    (flatScore ent L).length = L * L := by
  simp [flatScore]

theorem flatScore_getD (ent : ℕ → ℕ → ℚ) (L k : ℕ) (h : k < L * L) :
    (flatScore ent L).getD k 0 = ent (k / L) (k % L) := by
  have h1 : k < (flatScore ent L).length := by simpa [flatScore]
  rw [List.getD_eq_getElem _ _ h1]
  simp [flatScore]

theorem row_major_lt (L i j : ℕ) (hi : i < L) (hj : j < L) : i * L + j < L * L := by
  have h1 : (i + 1) * L = i * L + L := by ring
  have h2 : (i + 1) * L ≤ L * L := Nat.mul_le_mul_right L hi
  omega

end QA

namespace QA

/-! ### Helper lemmas: `get_score` (softmax) -/

theorem get_score_length (exp : ℚ → ℚ) (l : List ℚ) :
    (get_score exp l).length = l.length := by
  simp [get_score]

theorem get_score_getD (exp : ℚ → ℚ) (l : List ℚ) (i : ℕ) (h : i < l.length) :
    (get_score exp l).getD i 0 = exp (l.getD i 0) / (l.map exp).sum := by
  have h1 : i < (get_score exp l).length := by simpa [get_score_length] using h
  rw [List.getD_eq_getElem _ _ h1, List.getD_eq_getElem _ _ h]
  simp [get_score]

theorem sum_map_exp_pos (exp : ℚ → ℚ) (hexp : ∀ x, 0 < exp x) (l : List ℚ)
    (h : l ≠ []) : 0 < (l.map exp).sum := by
  refine List.sum_pos (l.map exp) ?_ (by simpa using h)
  intro x hx
  obtain ⟨y, _, rfl⟩ := List.mem_map.mp hx
  exact hexp y

theorem get_score_pos (exp : ℚ → ℚ) (hexp : ∀ x, 0 < exp x) (l : List ℚ)
    (i : ℕ) (h : i < l.length) : 0 < (get_score exp l).getD i 0 := by
  rw [get_score_getD exp l i h]
  refine div_pos (hexp _) (sum_map_exp_pos exp hexp l ?_)
  intro hc
  subst hc
  simp at h

theorem get_score_le_one (exp : ℚ → ℚ) (hexp : ∀ x, 0 < exp x) (l : List ℚ)
    (i : ℕ) (h : i < l.length) : (get_score exp l).getD i 0 ≤ 1 := by
  rw [get_score_getD exp l i h]
  have hS : 0 < (l.map exp).sum := by
    refine sum_map_exp_pos exp hexp l ?_
    intro hc
    subst hc
    simp at h
  rw [div_le_one hS]
  refine List.single_le_sum ?_ _ ?_
  · intro x hx
    obtain ⟨y, _, rfl⟩ := List.mem_map.mp hx
    exact le_of_lt (hexp y)
  · refine List.mem_map_of_mem exp ?_
    rw [List.getD_eq_getElem _ _ h]
    exact List.getElem_mem h

/-! ### Core facts about `find_best_answer_window` -/

theorem fbaw_ok_elim (start_score end_score : List ℚ) (cs ce : ℕ)
    (sc : ℚ) (s e : ℕ)
    (h : find_best_answer_window start_score end_score cs ce = .ok (sc, s, e)) :
    0 < ce - cs ∧
    s = npArgmax (flatScore (maskedEntry (sliced start_score cs ce)
      (sliced end_score cs ce)) (ce - cs)) / (ce - cs) ∧
    e = npArgmax (flatScore (maskedEntry (sliced start_score cs ce)
      (sliced end_score cs ce)) (ce - cs)) % (ce - cs) ∧
    sc = maskedEntry (sliced start_score cs ce) (sliced end_score cs ce) s e := by
  simp only [find_best_answer_window] at h
  split at h
  · exact absurd h (by simp)
  · rename_i hemp
    have hL : 0 < ce - cs := by
      rcases Nat.eq_zero_or_pos (ce - cs) with h0 | h0
      · exfalso
        apply hemp
        have : (flatScore (maskedEntry (sliced start_score cs ce)
            (sliced end_score cs ce)) (ce - cs)).length = 0 := by
          rw [flatScore_length, h0]
        simpa [List.isEmpty_iff, List.length_eq_zero] using this
      · exact h0
    rw [Except.ok.injEq, Prod.mk.injEq, Prod.mk.injEq] at h
    obtain ⟨hsc, hs, he⟩ := h
    refine ⟨hL, hs.symm, he.symm, ?_⟩
    rw [← hs, ← he]
    exact hsc.symm

theorem fbaw_band (start_score end_score : List ℚ) (cs ce : ℕ)
    (sc : ℚ) (s e : ℕ)
    (hpos_s : ∀ i, cs ≤ i → i < ce → 0 < start_score.getD i 0)
    (hpos_e : ∀ i, cs ≤ i → i < ce → 0 < end_score.getD i 0)
    (hlen_s : ce ≤ start_score.length) (hlen_e : ce ≤ end_score.length)
    (h : find_best_answer_window start_score end_score cs ce = .ok (sc, s, e)) :
    s ≤ e ∧ e ≤ s + 16 ∧ e < ce - cs ∧
    sc = start_score.getD (cs + s) 0 * end_score.getD (cs + e) 0 := by
  obtain ⟨hL, hs, he, hsc⟩ := fbaw_ok_elim start_score end_score cs ce sc s e h
  have hflat_ne : flatScore (maskedEntry (sliced start_score cs ce)
      (sliced end_score cs ce)) (ce - cs) ≠ [] := by
    intro hc
    have hlen := congrArg List.length hc
    rw [flatScore_length] at hlen
    simp only [List.length_nil] at hlen
    rcases Nat.mul_eq_zero.mp hlen with h0 | h0 <;> omega
  have hidx_lt : npArgmax (flatScore (maskedEntry (sliced start_score cs ce)
      (sliced end_score cs ce)) (ce - cs)) < (ce - cs) * (ce - cs) := by
    have := npArgmax_lt _ hflat_ne
    rwa [flatScore_length] at this
  have hslt : s < ce - cs := by
    rw [hs]
    exact (Nat.div_lt_iff_lt_mul hL).mpr hidx_lt
  have helt : e < ce - cs := by
    rw [he]
    exact Nat.mod_lt _ hL
  have hss_getD : ∀ i, i < ce - cs →
      (sliced start_score cs ce).getD i 0 = start_score.getD (cs + i) 0 := by
    intro i hi
    exact slice_getD start_score 0 cs (ce - cs) i hi (by omega)
  have hes_getD : ∀ i, i < ce - cs →
      (sliced end_score cs ce).getD i 0 = end_score.getD (cs + i) 0 := by
    intro i hi
    exact slice_getD end_score 0 cs (ce - cs) i hi (by omega)
  have hss_pos : ∀ i, i < ce - cs → 0 < (sliced start_score cs ce).getD i 0 := by
    intro i hi
    rw [hss_getD i hi]
    exact hpos_s _ (by omega) (by omega)
  have hes_pos : ∀ i, i < ce - cs → 0 < (sliced end_score cs ce).getD i 0 := by
    intro i hi
    rw [hes_getD i hi]
    exact hpos_e _ (by omega) (by omega)
  have h00 : (0:ℚ) < maskedEntry (sliced start_score cs ce)
      (sliced end_score cs ce) 0 0 := by
    rw [maskedEntry, if_pos (by omega)]
    exact mul_pos (hss_pos 0 hL) (hes_pos 0 hL)
  have hflat0 : (flatScore (maskedEntry (sliced start_score cs ce)
      (sliced end_score cs ce)) (ce - cs)).getD 0 0 =
      maskedEntry (sliced start_score cs ce) (sliced end_score cs ce) 0 0 := by
    rw [flatScore_getD _ _ _ (Nat.mul_pos hL hL)]
    simp
  have hmax_pos : 0 < (flatScore (maskedEntry (sliced start_score cs ce)
      (sliced end_score cs ce)) (ce - cs)).getD (npArgmax (flatScore
      (maskedEntry (sliced start_score cs ce) (sliced end_score cs ce))
      (ce - cs))) 0 := by
    refine lt_of_lt_of_le ?_ (npArgmax_le _ 0 ?_)
    · rw [hflat0]
      exact h00
    · rw [flatScore_length]
      exact Nat.mul_pos hL hL
  have hent_idx : (flatScore (maskedEntry (sliced start_score cs ce)
      (sliced end_score cs ce)) (ce - cs)).getD (npArgmax (flatScore
      (maskedEntry (sliced start_score cs ce) (sliced end_score cs ce))
      (ce - cs))) 0 =
      maskedEntry (sliced start_score cs ce) (sliced end_score cs ce) s e := by
    rw [flatScore_getD _ _ _ hidx_lt, ← hs, ← he]
  have hband_pos : 0 < maskedEntry (sliced start_score cs ce)
      (sliced end_score cs ce) s e := by
    rw [← hent_idx]
    exact hmax_pos
  have hband : s ≤ e ∧ e ≤ s + 16 := by
    by_contra hc
    rw [maskedEntry, if_neg hc] at hband_pos
    exact lt_irrefl 0 hband_pos
  refine ⟨hband.1, hband.2, helt, ?_⟩
  rw [hsc, maskedEntry, if_pos hband, hss_getD s hslt, hes_getD e helt]

/-- Bridge: the per-window span search applied, as in `postprocess`, to
softmax scores of arbitrary logit vectors. -/
theorem fbaw_softmax_band (exp : ℚ → ℚ) (hexp : ∀ x, 0 < exp x)
    (output_start output_end : List ℚ) (cs ce : ℕ)
    (hlen_s : ce ≤ output_start.length) (hlen_e : ce ≤ output_end.length)
    (sc : ℚ) (s e : ℕ)
    (h : find_best_answer_window (get_score exp output_start)
      (get_score exp output_end) cs ce = .ok (sc, s, e)) :
    s ≤ e ∧ e ≤ s + 16 ∧ e < ce - cs ∧
    sc = (get_score exp output_start).getD (cs + s) 0 *
      (get_score exp output_end).getD (cs + e) 0 := by
  refine fbaw_band _ _ cs ce sc s e ?_ ?_ ?_ ?_ h
  · intro i _ hi
    exact get_score_pos exp hexp output_start i (by omega)
  · intro i _ hi
    exact get_score_pos exp hexp output_end i (by omega)
  · rw [get_score_length]
    exact hlen_s
  · rw [get_score_length]
    exact hlen_e

end QA

namespace QA

/-! ### Helper lemma: Python `max` with key keeps the first maximum -/

theorem pyMax_spec (rs : List (ℚ × ℕ × ℕ)) : ∀ r : ℚ × ℕ × ℕ,
    ∃ i, ∃ hi : i < (r :: rs).length,
      pyMax r rs = (r :: rs).get ⟨i, hi⟩ ∧
      (∀ j, ∀ hj : j < (r :: rs).length, ((r :: rs).get ⟨j, hj⟩).1 ≤ (pyMax r rs).1) ∧
      (∀ j, ∀ hj : j < (r :: rs).length, j < i →
        ((r :: rs).get ⟨j, hj⟩).1 < (pyMax r rs).1) := by
  induction rs with
  | nil =>
    intro r
    refine ⟨0, by simp, by simp [pyMax], ?_, ?_⟩
    · intro j hj
      have hj0 : j = 0 := by simpa using hj
      subst hj0
      simp [pyMax]
    · intro j hj hji
      omega
  | cons x xs ih =>
    intro r
    simp only [List.get_eq_getElem] at ih ⊢
    have hstep : pyMax r (x :: xs) = pyMax (if r.1 < x.1 then x else r) xs := rfl
    by_cases hrx : r.1 < x.1
    · obtain ⟨i2, hi2, heq, hle, hlt⟩ := ih x
      rw [if_pos hrx] at hstep
      refine ⟨i2 + 1, by simpa using Nat.succ_lt_succ hi2, ?_, ?_, ?_⟩
      · rw [hstep, heq]
        simp
      · intro j hj
        rw [hstep]
        cases j with
        | zero =>
          simp only [List.getElem_cons_zero]
          have hx0 := hle 0 (by simp)
          simp only [List.getElem_cons_zero] at hx0
          exact le_trans (le_of_lt hrx) hx0
        | succ k =>
          simp only [List.getElem_cons_succ]
          exact hle k (by simpa using hj)
      · intro j hj hji
        rw [hstep]
        cases j with
        | zero =>
          simp only [List.getElem_cons_zero]
          have hx0 := hle 0 (by simp)
          simp only [List.getElem_cons_zero] at hx0
          exact lt_of_lt_of_le hrx hx0
        | succ k =>
          simp only [List.getElem_cons_succ]
          exact hlt k (by simpa using hj) (by omega)
    · obtain ⟨i2, hi2, heq, hle, hlt⟩ := ih r
      rw [if_neg hrx] at hstep
      push_neg at hrx
      cases i2 with
      | zero =>
        simp only [List.getElem_cons_zero] at heq
        refine ⟨0, by simp, ?_, ?_, ?_⟩
        · rw [hstep, heq]
          simp
        · intro j hj
          rw [hstep]
          cases j with
          | zero =>
            simp only [List.getElem_cons_zero]
            simpa using hle 0 (by simp)
          | succ k =>
            cases k with
            | zero =>
              simp only [List.getElem_cons_succ, List.getElem_cons_zero]
              rw [heq]
              exact hrx
            | succ m =>
              simp only [List.getElem_cons_succ]
              have := hle (m + 1) (by simpa using hj)
              simpa using this
        · intro j hj hji
          omega
      | succ k2 =>
        refine ⟨k2 + 2, ?_, ?_, ?_, ?_⟩
        · have : k2 + 1 < xs.length + 1 := by simpa using hi2
          simpa using Nat.succ_lt_succ this
        · rw [hstep, heq]
          simp
        · intro j hj
          rw [hstep]
          cases j with
          | zero =>
            simp only [List.getElem_cons_zero]
            have := hle 0 (by simp)
            simpa using this
          | succ k =>
            cases k with
            | zero =>
              simp only [List.getElem_cons_succ, List.getElem_cons_zero]
              have h0 := hle 0 (by simp)
              simp only [List.getElem_cons_zero] at h0
              exact le_trans hrx h0
            | succ m =>
              simp only [List.getElem_cons_succ]
              have := hle (m + 1) (by simpa using hj)
              simpa using this
        · intro j hj hji
          rw [hstep]
          cases j with
          | zero =>
            simp only [List.getElem_cons_zero]
            have := hlt 0 (by simp) (by omega)
            simpa using this
          | succ k =>
            cases k with
            | zero =>
              simp only [List.getElem_cons_succ, List.getElem_cons_zero]
              have h0 := hlt 0 (by simp) (by omega)
              simp only [List.getElem_cons_zero] at h0
              exact lt_of_le_of_lt hrx h0
            | succ m =>
              simp only [List.getElem_cons_succ]
              have := hlt (m + 1) (by simpa using hj) (by omega)
              simpa using this

end QA

namespace QA

/-! ### Decomposition of `prepare_input` -/

theorem prepare_input_eq_ok (cfg : Config) (q c : List ℕ) (ws : List WindowRec)
    (h : prepare_input cfg q c = .ok ws) :
    ¬ context_len_int cfg q.length < 16 ∧
    ws = (pyRange (max 1 (c.length - (context_len_int cfg q.length).toNat))
      ((context_len_int cfg q.length).toNat / 2)).map
      (mkWindow cfg q c (context_len_int cfg q.length).toNat) := by
  simp only [prepare_input] at h
  split at h
  · exact absurd h (by simp)
  · rename_i hguard
    rw [Except.ok.injEq] at h
    exact ⟨hguard, h.symm⟩

theorem context_cap_facts (cfg : Config) (qlen : ℕ)
    (h : ¬ context_len_int cfg qlen < 16) :
    (context_len_int cfg qlen).toNat = cfg.input_size - (qlen + 3) ∧
    qlen + 19 ≤ cfg.input_size ∧ 16 ≤ (context_len_int cfg qlen).toNat := by
  unfold context_len_int at h ⊢
  omega

theorem pad_spec (cfg : Config) (ids am tt : List ℕ)
    (h : ids.length ≤ cfg.input_size) :
    pad cfg ids am tt =
      ((ids ++ List.replicate (cfg.input_size - ids.length) cfg.pad_token,
        am ++ List.replicate (cfg.input_size - ids.length) 0,
        tt ++ List.replicate (cfg.input_size - ids.length) 0),
       (cfg.input_size : ℤ) - ids.length) := by
  simp only [pad]
  by_cases hd : 0 < (cfg.input_size : ℤ) - (ids.length : ℤ)
  · rw [if_pos hd]
    have htn : ((cfg.input_size : ℤ) - (ids.length : ℤ)).toNat =
        cfg.input_size - ids.length := by omega
    rw [htn]
  · rw [if_neg hd]
    have h0 : cfg.input_size - ids.length = 0 := by omega
    simp [h0]

theorem mkWindow_start (cfg : Config) (q c : List ℕ) (L s : ℕ) :
    (mkWindow cfg q c L s).start = s := rfl

/-- C2: windowing raises the input-too-long error exactly when
`input_size - len(question_tokens) - 3 < 16`; otherwise it succeeds and emits
at least one window, for every context. -/
theorem C2_error_iff (cfg : Config) (question_tokens context_tokens : List ℕ) :
    (prepare_input cfg question_tokens context_tokens = .error .inputTooLong ↔
      context_len_int cfg question_tokens.length < 16) ∧
    (¬ context_len_int cfg question_tokens.length < 16 →
      ∃ ws, prepare_input cfg question_tokens context_tokens = .ok ws ∧ ws ≠ []) := by
  constructor
  · constructor
    · intro h
      by_contra hc
      simp only [prepare_input, if_neg hc] at h
      exact absurd h (by simp)
    · intro h
      simp [prepare_input, if_pos h]
  · intro h
    refine ⟨(pyRange (max 1 (context_tokens.length -
        (context_len_int cfg question_tokens.length).toNat))
        ((context_len_int cfg question_tokens.length).toNat / 2)).map
        (mkWindow cfg question_tokens context_tokens
          (context_len_int cfg question_tokens.length).toNat), ?_, ?_⟩
    · simp [prepare_input, if_neg h]
    · have hcap := context_cap_facts cfg question_tokens.length h
      simp only [ne_eq, List.map_eq_nil_iff]
      exact pyRange_ne_nil _ _ (by omega) (by omega)

/-- C6: every emitted window is `[CLS] + question + [SEP] + context_slice +
[SEP]` right-padded with the pad token to exactly `input_size` entries, its
attention mask is 1 on the non-padding prefix and 0 on the padding, and its
segment mask is 0 over `[CLS]+question+[SEP]`, 1 over `context_slice+[SEP]`,
and 0 over the padding. -/
theorem C6_window_layout (cfg : Config) (question_tokens context_tokens : List ℕ)
    (ws : List WindowRec)
    (hok : prepare_input cfg question_tokens context_tokens = .ok ws)
    (w : WindowRec) (hw : w ∈ ws) (part : List ℕ) (pn : ℕ)
    (hpart : part = context_slice cfg question_tokens context_tokens w.start)
    (hpn : pn = cfg.input_size - (question_tokens.length + part.length + 3)) :
    w.input_ids = [cfg.cls_token] ++ question_tokens ++ [cfg.sep_token] ++ part ++
      [cfg.sep_token] ++ List.replicate pn cfg.pad_token ∧
    w.input_ids.length = cfg.input_size ∧
    w.attention_mask =
      List.replicate (question_tokens.length + part.length + 3) 1 ++
      List.replicate pn 0 ∧
    w.token_type_ids = List.replicate (question_tokens.length + 2) 0 ++
      List.replicate (part.length + 1) 1 ++ List.replicate pn 0 := by
  obtain ⟨hguard, hws⟩ := prepare_input_eq_ok cfg question_tokens context_tokens ws hok
  obtain ⟨hL, hge, h16⟩ := context_cap_facts cfg question_tokens.length hguard
  subst hws
  obtain ⟨s, hs_mem, hwdef⟩ := List.mem_map.mp hw
  subst hwdef
  rw [mkWindow_start] at hpart
  set L := (context_len_int cfg question_tokens.length).toNat with hLdef
  simp only [context_slice, ← hLdef] at hpart
  subst hpart
  have hplen : ((context_tokens.drop s).take L).length ≤ L := by
    simp only [List.length_take]
    exact Nat.min_le_left _ _
  have hlen0 : ([cfg.cls_token] ++ question_tokens ++ [cfg.sep_token] ++
      (context_tokens.drop s).take L ++ [cfg.sep_token]).length =
      question_tokens.length + ((context_tokens.drop s).take L).length + 3 := by
    simp only [List.length_append, List.length_cons, List.length_nil]
    omega
  have hle : ([cfg.cls_token] ++ question_tokens ++ [cfg.sep_token] ++
      (context_tokens.drop s).take L ++ [cfg.sep_token]).length ≤ cfg.input_size := by
    omega
  simp only [mkWindow]
  rw [pad_spec cfg _ _ _ hle]
  rw [hlen0]
  refine ⟨?_, ?_, ?_, ?_⟩
  · rw [← hpn]
  · simp only [List.length_append, List.length_replicate, List.length_cons,
      List.length_nil]
    omega
  · rw [← hpn]
  · rw [← hpn]

end QA

namespace QA

/-- C5 (amended): the slices of any two adjacent emitted windows overlap by
exactly `context_len - context_len / 2` tokens, the number of tokens of a full
slice not advanced over by the stride `context_len // 2` (for even
`context_len` this equals `context_len // 2`; for odd `context_len` it is one
more). Whenever two adjacent windows exist, both have full-length slices, so
no partial-window exception arises for the pairs themselves. -/
theorem C5_overlap_amended (cfg : Config) (question_tokens context_tokens : List ℕ)
    (ws : List WindowRec)
    (hok : prepare_input cfg question_tokens context_tokens = .ok ws)
    (k : ℕ) (hk0 : k < ws.length) (hk1 : k + 1 < ws.length) :
    adjacent_overlap cfg question_tokens context_tokens
      (ws.get ⟨k, hk0⟩).start (ws.get ⟨k + 1, hk1⟩).start =
    (context_len_int cfg question_tokens.length).toNat -
      (context_len_int cfg question_tokens.length).toNat / 2 := by
  obtain ⟨hguard, hws⟩ := prepare_input_eq_ok cfg question_tokens context_tokens ws hok
  obtain ⟨hLeq, hge, h16⟩ := context_cap_facts cfg question_tokens.length hguard
  set L := (context_len_int cfg question_tokens.length).toNat with hLdef
  set n := context_tokens.length with hndef
  set step := L / 2 with hstepdef
  have hstep8 : 8 ≤ step := by omega
  subst hws
  have hsk : (((pyRange (max 1 (n - L)) step).map
      (mkWindow cfg question_tokens context_tokens L)).get ⟨k, hk0⟩).start =
      k * step := by
    rw [List.get_eq_getElem, List.getElem_map, mkWindow_start]
    have hk2 : k < (pyRange (max 1 (n - L)) step).length := by simpa using hk0
    have hg := pyRange_get (max 1 (n - L)) step k hk2
    rw [List.get_eq_getElem] at hg
    exact hg
  have hsk1 : (((pyRange (max 1 (n - L)) step).map
      (mkWindow cfg question_tokens context_tokens L)).get ⟨k + 1, hk1⟩).start =
      (k + 1) * step := by
    rw [List.get_eq_getElem, List.getElem_map, mkWindow_start]
    have hk2 : k + 1 < (pyRange (max 1 (n - L)) step).length := by simpa using hk1
    have hg := pyRange_get (max 1 (n - L)) step (k + 1) hk2
    rw [List.get_eq_getElem] at hg
    exact hg
  rw [hsk, hsk1]
  have hcl : k + 1 < (max 1 (n - L) + step - 1) / step := by
    rw [List.length_map, pyRange_length] at hk1
    exact hk1
  have hb : (k + 1) * step < max 1 (n - L) :=
    (lt_ceilDiv_iff _ _ _ (by omega)).mp hcl
  have hmul : (k + 1) * step = k * step + step := by ring
  simp only [adjacent_overlap, context_slice, ← hLdef]
  have hlen1 : ((context_tokens.drop (k * step)).take L).length = L := by
    simp only [List.length_take, List.length_drop, ← hndef]
    omega
  have hlen2 : ((context_tokens.drop ((k + 1) * step)).take L).length = L := by
    simp only [List.length_take, List.length_drop, ← hndef]
    omega
  rw [hlen1, hlen2]
  omega

/-- C4: the span selected by the per-window span search never exceeds the
16-token mask bound: `max_end - max_start ≤ 16`, the spec's own measure of
span length (its masking rule zeroes every candidate with
`end-index - start-index > 16`). Stated as in `postprocess`: the span search
runs on softmax scores of arbitrary real logit vectors. -/
theorem C4_span_length_bound (exp : ℚ → ℚ) (hexp : ∀ x, 0 < exp x)
    (output_start output_end : List ℚ) (cs ce : ℕ)
    (hlen_s : ce ≤ output_start.length) (hlen_e : ce ≤ output_end.length)
    (sc : ℚ) (s e : ℕ)
    (h : find_best_answer_window (get_score exp output_start)
      (get_score exp output_end) cs ce = .ok (sc, s, e)) :
    e ≤ s + 16 :=
  (fbaw_softmax_band exp hexp output_start output_end cs ce hlen_s hlen_e
    sc s e h).2.1

/-- C7: the span returned by the per-window span search attains the maximum of
the masked score matrix, and every row-major-earlier cell scores strictly
less: exactly the first index attaining the maximum of the row-major
flattened matrix, with ties broken by lowest start index, then lowest end
index. -/
theorem C7_argmax_row_major (start_score end_score : List ℚ) (cs ce : ℕ)
    (sc : ℚ) (s e : ℕ)
    (h : find_best_answer_window start_score end_score cs ce = .ok (sc, s, e)) :
    s < ce - cs ∧ e < ce - cs ∧
    sc = maskedEntry (sliced start_score cs ce) (sliced end_score cs ce) s e ∧
    (∀ i j, i < ce - cs → j < ce - cs →
      maskedEntry (sliced start_score cs ce) (sliced end_score cs ce) i j ≤ sc) ∧
    (∀ i j, i < ce - cs → j < ce - cs → i * (ce - cs) + j < s * (ce - cs) + e →
      maskedEntry (sliced start_score cs ce) (sliced end_score cs ce) i j < sc) := by
  obtain ⟨hL, hs, he, hsc⟩ := fbaw_ok_elim start_score end_score cs ce sc s e h
  set L := ce - cs with hLdef
  set ent := maskedEntry (sliced start_score cs ce) (sliced end_score cs ce)
    with hentdef
  set idx := npArgmax (flatScore ent L) with hidxdef
  have hflat_ne : flatScore ent L ≠ [] := by
    intro hc
    have hlen := congrArg List.length hc
    rw [flatScore_length] at hlen
    simp only [List.length_nil] at hlen
    rcases Nat.mul_eq_zero.mp hlen with h0 | h0 <;> omega
  have hidx_lt : idx < L * L := by
    have := npArgmax_lt _ hflat_ne
    rwa [flatScore_length] at this
  have hslt : s < L := by
    rw [hs]
    exact (Nat.div_lt_iff_lt_mul hL).mpr hidx_lt
  have helt : e < L := by
    rw [he]
    exact Nat.mod_lt _ hL
  have hidx_eq : idx = s * L + e := by
    rw [hs, he]
    have h1 := Nat.div_add_mod idx L
    have h2 : L * (idx / L) = idx / L * L := by ring
    omega
  have hflat_idx : (flatScore ent L).getD idx 0 = ent s e := by
    rw [flatScore_getD _ _ _ hidx_lt, ← hs, ← he]
  refine ⟨hslt, helt, hsc, ?_, ?_⟩
  · intro i j hi hj
    have hk : i * L + j < L * L := row_major_lt L i j hi hj
    have hle := npArgmax_le (flatScore ent L) (i * L + j)
      (by rw [flatScore_length]; exact hk)
    rw [hflat_idx, flatScore_getD _ _ _ hk] at hle
    have hcomm : i * L + j = L * i + j := by ring
    have hdiv : (i * L + j) / L = i := by
      rw [hcomm, Nat.mul_add_div hL, Nat.div_eq_of_lt hj, Nat.add_zero]
    have hmod : (i * L + j) % L = j := by
      rw [hcomm, Nat.mul_add_mod, Nat.mod_eq_of_lt hj]
    rw [hdiv, hmod] at hle
    rw [hsc]
    exact hle
  · intro i j hi hj hlt_idx
    have hk : i * L + j < L * L := row_major_lt L i j hi hj
    have hfirst := npArgmax_first (flatScore ent L) (i * L + j)
      (by rw [← hidxdef, hidx_eq]; exact hlt_idx)
    rw [← hidxdef, hflat_idx, flatScore_getD _ _ _ hk] at hfirst
    have hcomm : i * L + j = L * i + j := by ring
    have hdiv : (i * L + j) / L = i := by
      rw [hcomm, Nat.mul_add_div hL, Nat.div_eq_of_lt hj, Nat.add_zero]
    have hmod : (i * L + j) % L = j := by
      rw [hcomm, Nat.mul_add_mod, Nat.mod_eq_of_lt hj]
    rw [hdiv, hmod] at hfirst
    rw [hsc]
    exact hfirst

end QA

namespace QA

/-- C9: the score returned by the per-window span search on softmax scores of
real-valued logits lies in `[0, 1]`; it is exactly the product of the two
softmax probabilities at the selected start and end positions of the padded
input, and no cross-window normalization is applied anywhere in the code. -/
theorem C9_score_unit_interval (exp : ℚ → ℚ) (hexp : ∀ x, 0 < exp x)
    (output_start output_end : List ℚ) (cs ce : ℕ)
    (hlen_s : ce ≤ output_start.length) (hlen_e : ce ≤ output_end.length)
    (sc : ℚ) (s e : ℕ)
    (h : find_best_answer_window (get_score exp output_start)
      (get_score exp output_end) cs ce = .ok (sc, s, e)) :
    0 ≤ sc ∧ sc ≤ 1 ∧
    sc = (get_score exp output_start).getD (cs + s) 0 *
      (get_score exp output_end).getD (cs + e) 0 := by
  obtain ⟨hse, h16, helt, hprod⟩ := fbaw_softmax_band exp hexp output_start
    output_end cs ce hlen_s hlen_e sc s e h
  have hslt : s < ce - cs := lt_of_le_of_lt hse helt
  have hs_lt : cs + s < output_start.length := by omega
  have he_lt : cs + e < output_end.length := by omega
  have hp1 := get_score_pos exp hexp output_start (cs + s) hs_lt
  have hp2 := get_score_pos exp hexp output_end (cs + e) he_lt
  have hq1 := get_score_le_one exp hexp output_start (cs + s) hs_lt
  have hq2 := get_score_le_one exp hexp output_end (cs + e) he_lt
  refine ⟨?_, ?_, hprod⟩
  · rw [hprod]
    exact mul_nonneg (le_of_lt hp1) (le_of_lt hp2)
  · rw [hprod]
    exact mul_le_one₀ hq1 (le_of_lt hp2) hq2

/-- C10: on softmax scores of real-valued logits, the per-window span search
returns a well-ordered span inside the window's context slice:
`max_start ≤ max_end < context_end_idx - context_start_idx` (the lower bound
`0 ≤ max_start` holds by the index type). -/
theorem C10_span_well_formed (exp : ℚ → ℚ) (hexp : ∀ x, 0 < exp x)
    (output_start output_end : List ℚ) (cs ce : ℕ)
    (hlen_s : ce ≤ output_start.length) (hlen_e : ce ≤ output_end.length)
    (sc : ℚ) (s e : ℕ)
    (h : find_best_answer_window (get_score exp output_start)
      (get_score exp output_end) cs ce = .ok (sc, s, e)) :
    s ≤ e ∧ e < ce - cs := by
  obtain ⟨hse, h16, helt, hprod⟩ := fbaw_softmax_band exp hexp output_start
    output_end cs ce hlen_s hlen_e sc s e h
  exact ⟨hse, helt⟩

/-- C8: when the pipeline returns an answer, it is the per-window candidate
with the maximum score, ties resolved in favour of the earliest-emitted
window (the stable Python `max` over emission order), and the answer text is
the context substring over that candidate's character range (which
`postprocess` derived from the token offsets shifted by the window start). -/
theorem C8_stable_max_selection (cfg : Config) (exp : ℚ → ℚ)
    (tok : String → List ℕ × List (ℕ × ℕ)) (model : WindowRec → List ℚ × List ℚ)
    (question context : String) (text : String) (score : ℚ)
    (h : get_best_answer cfg exp tok model question context = .ok (text, score)) :
    ∃ cands, candidates cfg exp tok model question context = .ok cands ∧
      ∃ i, ∃ hi : i < cands.length,
        (cands.get ⟨i, hi⟩).1 = score ∧
        text = pySlice context (cands.get ⟨i, hi⟩).2.1 (cands.get ⟨i, hi⟩).2.2 ∧
        (∀ j, ∀ hj : j < cands.length, (cands.get ⟨j, hj⟩).1 ≤ score) ∧
        (∀ j, ∀ hj : j < cands.length, j < i →
          (cands.get ⟨j, hj⟩).1 < score) := by
  unfold get_best_answer at h
  split at h
  · exact absurd h (by simp)
  · exact absurd h (by simp)
  · rename_i r rs heq
    rw [Except.ok.injEq, Prod.mk.injEq] at h
    obtain ⟨htext, hscore⟩ := h
    obtain ⟨i, hi, hmax_eq, hle, hlt⟩ := pyMax_spec rs r
    refine ⟨r :: rs, heq, i, hi, ?_, ?_, ?_, ?_⟩
    · rw [← hmax_eq, hscore]
    · rw [← htext, ← hmax_eq]
    · intro j hj
      rw [← hscore]
      exact hle j hj
    · intro j hj hji
      rw [← hscore]
      exact hlt j hj hji

/-- C3 (amended): when the supplied context string is empty (`len(context) ==
0`, the guard actually present in `run_question_answering`), the pipeline
signals the empty-context failure before tokenizing or building any window —
for every tokenizer, model, and question — and no answer is returned. A
context that is a non-empty string but tokenizes to no tokens is not caught
by this guard (see the counterexample). -/
theorem C3_empty_string_guard (cfg : Config) (exp : ℚ → ℚ)
    (tok : String → List ℕ × List (ℕ × ℕ)) (model : WindowRec → List ℚ × List ℚ)
    (question context : String) (hempty : context.length = 0) :
    run_question_answering cfg exp tok model context question =
      .error .emptyContext := by
  rw [run_question_answering, if_pos hempty]

end QA

namespace QA

/-! ### Concrete evaluations of the pipeline -/

/-- C1: refuted on the code. With `input_size = 20` and an empty question the
context capacity is 17 (so windowing accepts the input), yet a context of 18
tokens produces a single window whose slice covers token indices `[0, 17)`
only: the last context token (index 17) is contained in no emitted window's
context slice, because the loop bound `max(1, len(context_tokens) -
context_len)` stops the iteration one stride too early; the final emitted
window does not extend to the tail of the context. -/
theorem C1_tail_token_uncovered :
    coveredB ⟨20, 101, 102, 0⟩ [] (List.range 18) 17 = false ∧
    (prepare_input ⟨20, 101, 102, 0⟩ [] (List.range 18)).toOption.map
      (List.map WindowRec.start) = some [0] ∧
    ¬ context_len_int ⟨20, 101, 102, 0⟩ ([] : List ℕ).length < 16 ∧
    17 < (List.range 18).length := by
  decide

/-- C5: refuted on the code as stated. With `input_size = 30` and a 10-token
question the context capacity is 17 (odd); three windows start at 0, 8, 16,
and the slices of the adjacent windows starting at 0 and 8 share 9 token
positions, not `17 // 2 = 8`: the stride is `capacity // 2` but the overlap is
`capacity - capacity // 2`. -/
theorem C5_counterexample :
    (prepare_input ⟨30, 101, 102, 0⟩ (List.replicate 10 7) (List.range 40)).toOption.map
      (List.map WindowRec.start) = some [0, 8, 16] ∧
    adjacent_overlap ⟨30, 101, 102, 0⟩ (List.replicate 10 7) (List.range 40) 0 8 ≠
      (context_len_int ⟨30, 101, 102, 0⟩ (List.replicate 10 7).length).toNat / 2 ∧
    adjacent_overlap ⟨30, 101, 102, 0⟩ (List.replicate 10 7) (List.range 40) 0 8 = 9 ∧
    (context_len_int ⟨30, 101, 102, 0⟩ (List.replicate 10 7).length).toNat / 2 = 8 := by
  decide

/-- C3: refuted on the code as stated. The context `" "` tokenizes to no
tokens, yet it passes the `len(context) == 0` guard (its string length is 1):
one window is built, and the failure is the numpy error raised by `argmax` on
the empty score matrix inside the span search, not the empty-context error
before windowing. -/
theorem C3_counterexample :
    (specTokenize " ").1 = [] ∧
    run_question_answering ⟨21, 101, 102, 0⟩ (fun _ => 1) specTokenize
      (fun _ => (List.replicate 21 0, List.replicate 21 0)) " " "ab" =
      .error .emptyScoreMatrix ∧
    (prepare_input ⟨21, 101, 102, 0⟩ (specTokenize "ab").1 (specTokenize " ").1).toOption.map
      List.length = some 1 := by
  have h1 : (" " : String).toLower = " " := by
    simp only [String.toLower, String.map_eq]
    decide
  have h2 : ("ab" : String).toLower = "ab" := by
    simp only [String.toLower, String.map_eq]
    decide
  refine ⟨by decide, ?_, by decide⟩
  have hc : candidates ⟨21, 101, 102, 0⟩ (fun _ => 1) specTokenize
      (fun _ => (List.replicate 21 0, List.replicate 21 0)) "ab" " " =
      .error .emptyScoreMatrix := by
    simp only [candidates, h1, h2]
    decide
  rw [run_question_answering, if_neg (by decide)]
  simp only [get_best_answer, hc]

/-- Evaluation helper: the span search on the softmax of a single-logit vector
returns the full-probability span `(0, 0)` with score 1. -/
theorem fbaw_unit_eval :
    find_best_answer_window (get_score (fun _ => (1:ℚ)) [0])
      (get_score (fun _ => (1:ℚ)) [0]) 0 1 = .ok (1, 0, 0) := by
  simp [find_best_answer_window, get_score, sliced, flatScore, maskedEntry, npArgmax]

/-- Evaluation helper: the full pipeline on question `"ab"`, context `"x"`,
with a model producing empty logit arrays, returns the answer `"x"` with
score 0. -/
theorem gba_unit_eval :
    get_best_answer ⟨21, 101, 102, 0⟩ (fun _ => 1) specTokenize
      (fun _ => ([], [])) "ab" "x" = .ok ("x", 0) := by
  have h2 : ("ab" : String).toLower = "ab" := by
    simp only [String.toLower, String.map_eq]
    decide
  have h3 : ("x" : String).toLower = "x" := by
    simp only [String.toLower, String.map_eq]
    decide
  have htokab : specTokenize "ab" = ([97, 98], [(0, 1), (1, 2)]) := by decide
  have htokx : specTokenize "x" = ([120], [(0, 1)]) := by decide
  have hprep : prepare_input ⟨21, 101, 102, 0⟩ [97, 98] [120] =
      .ok [mkWindow ⟨21, 101, 102, 0⟩ [97, 98] [120] 16 0] := by decide
  have hpadn : (mkWindow ⟨21, 101, 102, 0⟩ [97, 98] [120] 16 0).pad_number = 15 := by
    decide
  have hfind : find_best_answer_window (get_score (fun _ => 1) [])
      (get_score (fun _ => 1) []) 4 5 = .ok (0, 0, 0) := by
    simp [find_best_answer_window, get_score, sliced, flatScore, maskedEntry, npArgmax]
  have hpost : postprocess ⟨21, 101, 102, 0⟩ (fun _ => 1) [] [] [97, 98] [(0, 1)] 15 0 =
      .ok (0, 0, 1) := by
    simp [postprocess, hfind]
  have hc : candidates ⟨21, 101, 102, 0⟩ (fun _ => 1) specTokenize
      (fun _ => ([], [])) "ab" "x" = .ok [(0, 0, 1)] := by
    simp only [candidates, h2, h3, htokab, htokx, hprep]
    simp only [List.mapM_cons, List.mapM_nil]
    simp only [hpadn, mkWindow_start]
    simp only [hpost]
    rfl
  simp only [get_best_answer, hc]
  simp [pyMax, pySlice]

/-! ### Witnesses -/

/-- Witness for C2 at a satisfiable instance (capacity exactly 16). -/
theorem C2_witness :
    ∃ ws, prepare_input ⟨21, 101, 102, 0⟩ [5, 6] [9] = .ok ws ∧ ws ≠ [] :=
  (C2_error_iff ⟨21, 101, 102, 0⟩ [5, 6] [9]).2 (by decide)

/-- Witness for the amended C3 at the empty context string. -/
theorem C3_empty_string_guard_witness :
    run_question_answering ⟨21, 101, 102, 0⟩ (fun _ => 1) specTokenize
      (fun _ => ([], [])) "" "ab" = .error .emptyContext :=
  C3_empty_string_guard ⟨21, 101, 102, 0⟩ (fun _ => 1) specTokenize
    (fun _ => ([], [])) "ab" "" (by decide)

/-- Witness for C4 on a concrete single-logit window. -/
theorem C4_witness : (0 : ℕ) ≤ 0 + 16 :=
  C4_span_length_bound (fun _ => 1) (fun _ => one_pos) [0] [0] 0 1
    (by decide) (by decide) 1 0 0 fbaw_unit_eval

/-- Witness for the amended C5 on the three-window instance. -/
theorem C5_amended_witness :
    adjacent_overlap ⟨30, 101, 102, 0⟩ (List.replicate 10 7) (List.range 40) 0 8 =
      (context_len_int ⟨30, 101, 102, 0⟩ (List.replicate 10 7).length).toNat -
      (context_len_int ⟨30, 101, 102, 0⟩ (List.replicate 10 7).length).toNat / 2 := by
  have hok : prepare_input ⟨30, 101, 102, 0⟩ (List.replicate 10 7) (List.range 40) =
      .ok [mkWindow ⟨30, 101, 102, 0⟩ (List.replicate 10 7) (List.range 40) 17 0,
           mkWindow ⟨30, 101, 102, 0⟩ (List.replicate 10 7) (List.range 40) 17 8,
           mkWindow ⟨30, 101, 102, 0⟩ (List.replicate 10 7) (List.range 40) 17 16] := by
    decide
  exact C5_overlap_amended ⟨30, 101, 102, 0⟩ (List.replicate 10 7) (List.range 40)
    _ hok 0 (by decide) (by decide)

/-- Witness for C6 on the single-window instance. -/
theorem C6_witness :
    (mkWindow ⟨20, 101, 102, 0⟩ [] (List.range 18) 17 0).input_ids.length = 20 := by
  have hok : prepare_input ⟨20, 101, 102, 0⟩ [] (List.range 18) =
      .ok [mkWindow ⟨20, 101, 102, 0⟩ [] (List.range 18) 17 0] := by decide
  have hw : mkWindow ⟨20, 101, 102, 0⟩ [] (List.range 18) 17 0 ∈
      [mkWindow ⟨20, 101, 102, 0⟩ [] (List.range 18) 17 0] :=
    List.mem_singleton_self _
  exact (C6_window_layout ⟨20, 101, 102, 0⟩ [] (List.range 18) _ hok _ hw _ _
    rfl rfl).2.1

/-- Witness for C7 on a concrete single-logit window. -/
theorem C7_witness : (0 : ℕ) < 1 - 0 :=
  (C7_argmax_row_major (get_score (fun _ => (1:ℚ)) [0])
    (get_score (fun _ => (1:ℚ)) [0]) 0 1 1 0 0 fbaw_unit_eval).1

/-- Witness for C8 on the concrete pipeline run of `gba_unit_eval`. -/
theorem C8_witness :
    ∃ cands, candidates ⟨21, 101, 102, 0⟩ (fun _ => 1) specTokenize
      (fun _ => ([], [])) "ab" "x" = .ok cands ∧
      ∃ i, ∃ hi : i < cands.length,
        (cands.get ⟨i, hi⟩).1 = 0 ∧
        "x" = pySlice "x" (cands.get ⟨i, hi⟩).2.1 (cands.get ⟨i, hi⟩).2.2 ∧
        (∀ j, ∀ hj : j < cands.length, (cands.get ⟨j, hj⟩).1 ≤ 0) ∧
        (∀ j, ∀ hj : j < cands.length, j < i → (cands.get ⟨j, hj⟩).1 < 0) :=
  C8_stable_max_selection ⟨21, 101, 102, 0⟩ (fun _ => 1) specTokenize
    (fun _ => ([], [])) "ab" "x" "x" 0 gba_unit_eval

/-- Witness for C9 on a concrete single-logit window. -/
theorem C9_witness : (0 : ℚ) ≤ 1 :=
  (C9_score_unit_interval (fun _ => 1) (fun _ => one_pos) [0] [0] 0 1
    (by decide) (by decide) 1 0 0 fbaw_unit_eval).1

/-- Witness for C10 on a concrete single-logit window. -/
theorem C10_witness : (0 : ℕ) ≤ 0 ∧ (0 : ℕ) < 1 - 0 :=
  C10_span_well_formed (fun _ => 1) (fun _ => one_pos) [0] [0] 0 1
    (by decide) (by decide) 1 0 0 fbaw_unit_eval

end QA
